import Mathlib

/-!
# Verification of the `nestjs-gql-namespaces` namespace registry

Shallow embedding of `src/core/registry.ts` (`NamespaceRegistryImpl`) and
`src/core/utils.ts`. JavaScript `Map`s are modelled as association lists
with insertion order (`mapGet` / `mapSet`); the runtime class objects
produced by `getOrCreateObjectType` are modelled by fresh numeric
identifiers drawn from a counter, so "the identical instance" becomes
"the same identifier". The `||` default-operator of JavaScript (which
treats the empty string as absent) is modelled by `jsOr`. Function-valued
fields of the source records (`returnTypeFn`, the resolver class bodies)
carry no data relevant to the registry algebra and are omitted from the
records; the `classDefaultLeafType` weak map and the dual/original
resolver lists are likewise independent of the graph state studied here.
-/

set_option autoImplicit false

namespace GqlNs

/-- The two operation kinds (`type GraphQLKind = 'Mutation' | 'Query'`). -/
inductive GraphQLKind where
  | Mutation
  | Query
deriving DecidableEq, Repr

/-- The string a `GraphQLKind` interpolates to in template literals. -/
def kindStr : GraphQLKind → String
  | .Mutation => "Mutation"
  | .Query => "Query"

/-- JavaScript `o || d` on an optional string: the empty string and
`undefined` both fall through to the default. -/
def jsOr (o : Option String) (d : String) : String :=
  match o with
  | some s => if s = "" then d else s
  | none => d

/-- `Map.get`: value of the first (unique, in reachable states) entry. -/
def mapGet {α : Type} (m : List (String × α)) (k : String) : Option α :=
  (m.find? (fun p => p.1 == k)).map (fun p => p.2)

/-- `Map.has`. -/
def mapHas {α : Type} (m : List (String × α)) (k : String) : Bool :=
  m.any (fun p => p.1 == k)

/-- `Map.set`: replace the value at the key in place, else append. -/
def mapSet {α : Type} : List (String × α) → String → α → List (String × α)
  | [], k, v => [(k, v)]
  | (k', v') :: rest, k, v =>
      if k' == k then (k, v) :: rest else (k', v') :: mapSet rest k v

/-- The global regex replacement in `normalizeNamespaceName`, over the
character list: a hyphen followed by an ASCII lowercase letter becomes
the uppercased letter. -/
def camelHyphens : List Char → List Char
  | [] => []
  | '-' :: c :: rest =>
      if 'a' ≤ c ∧ c ≤ 'z' then c.toUpper :: camelHyphens rest
      else '-' :: camelHyphens (c :: rest)
  | c :: rest => c :: camelHyphens rest

/-- `normalizeNamespaceName`: lowercase the first character, then
camel-case hyphenated segments in the remainder. -/
def normalizeNamespaceName (name : String) : String :=
  match name.data with
  | [] => ""
  | c :: rest => String.mk (c.toLower :: camelHyphens rest)

/-- `pascalCase`: uppercase the first character. -/
def pascalCase (s : String) : String :=
  match s.data with
  | [] => ""
  | c :: rest => String.mk (c.toUpper :: rest)

/-- `createDefaultTypeName(segment, kind)`. -/
def createDefaultTypeName (segment : String) (graphqlKind : GraphQLKind) : String :=
  let suffix := match graphqlKind with
    | .Mutation => "Mutations"
    | .Query => "Queries"
  pascalCase segment ++ suffix

/-- `createResolverClassName(typeName, suffix)`. -/
def createResolverClassName (typeName : String) (suffix : String) : String :=
  typeName ++ suffix

/-- `createLinkResolverClassName(parentTypeName, fieldName)`. -/
def createLinkResolverClassName (parentTypeName : String) (fieldName : String) : String :=
  parentTypeName ++ "_" ++ fieldName ++ "_LinkResolver"

/-- `createSegmentMappingKey(kind, segment, parentSegment?)`. -/
def createSegmentMappingKey (graphqlKind : GraphQLKind) (segment : String)
    (parentSegment : Option String) : String :=
  kindStr graphqlKind ++ ":" ++ jsOr parentSegment "" ++ ":" ++ segment

/-- `createLeafParentKey(kind, leaf)`. -/
def createLeafParentKey (graphqlKind : GraphQLKind) (leaf : String) : String :=
  kindStr graphqlKind ++ ":" ++ leaf

/-- `createRootKey(kind, rootName)` (normalizes its argument itself). -/
def createRootKey (graphqlKind : GraphQLKind) (rootName : String) : String :=
  kindStr graphqlKind ++ ":" ++ normalizeNamespaceName rootName

/-- JavaScript `String.prototype.split` with a one-character separator,
over the character list (structurally recursive so that concrete keys
evaluate inside the kernel). -/
def splitCharList (sep : Char) : List Char → List (List Char)
  | [] => [[]]
  | c :: rest =>
      let r := splitCharList sep rest
      if c = sep then [] :: r
      else
        match r with
        | [] => [[c]]
        | h :: t => (c :: h) :: t

/-- JavaScript `s.split(sep)` for a one-character separator string. -/
def jsSplit (s : String) (sep : Char) : List String :=
  (splitCharList sep s.data).map String.mk

/-- `parseNamespaceSegments` / the inline `namespace.split('.').filter(Boolean)`. -/
def parseNamespaceSegments (ns : String) : List String :=
  (jsSplit ns '.').filter (fun s => s ≠ "")

/-- `NamespaceEdge` of `core/types.ts`. -/
structure NamespaceEdge where
  graphqlKind : GraphQLKind
  segments : List String
  targetTypeName : String
deriving DecidableEq, Repr

/-- Join a segment list with dots as `segments.join('.')` does. -/
def joinDot (segments : List String) : String :=
  String.intercalate "." segments

/-- `edgesAreEqual` of `utils.ts`: kind, joined path and target name match. -/
def edgesAreEqual (e1 e2 : NamespaceEdge) : Bool :=
  e1.graphqlKind == e2.graphqlKind
    && joinDot e1.segments == joinDot e2.segments
    && e1.targetTypeName == e2.targetTypeName

/-- `FieldMetadata` of `core/types.ts` (the `returnTypeFn` closure carries
no registry-relevant data and is left out). -/
structure FieldMetadata where
  graphqlKind : GraphQLKind
  segments : List String
  fieldName : String
deriving DecidableEq, Repr

/-- `NamespaceRoot` of `core/types.ts`. -/
structure NamespaceRoot where
  graphqlKind : GraphQLKind
  typeName : String
deriving DecidableEq, Repr

/-- The mutable state of `NamespaceRegistryImpl`. Created type objects are
identified by the number drawn from `nextTypeId` at creation time. -/
structure RegState where
  createdTypes : List (String × Nat)
  nextTypeId : Nat
  roots : List (String × NamespaceRoot)
  edges : List NamespaceEdge
  fields : List FieldMetadata
  segmentToTypeName : List (String × String)
  leafToParent : List (String × String)
deriving DecidableEq, Repr

/-- The freshly constructed registry (all maps and lists empty). -/
def initState : RegState :=
  { createdTypes := [], nextTypeId := 0, roots := [], edges := [],
    fields := [], segmentToTypeName := [], leafToParent := [] }

/-- `getOrCreateObjectType(typeName)`: return the cached identifier, else
mint a fresh one and cache it. -/
def getOrCreateObjectType (st : RegState) (typeName : String) : Nat × RegState :=
  match mapGet st.createdTypes typeName with
  | some id => (id, st)
  | none =>
      (st.nextTypeId,
        { st with
          createdTypes := mapSet st.createdTypes typeName st.nextTypeId,
          nextTypeId := st.nextTypeId + 1 })

/-- `setSegmentMapping(kind, segment, typeName, parentSegment?)`: conflict
check against the secondary index, then record both mappings and ensure
the named type. -/
def setSegmentMapping (st : RegState) (graphqlKind : GraphQLKind) (segment : String)
    (typeName : String) (parentSegment : Option String) : Except String RegState :=
  let key := createSegmentMappingKey graphqlKind segment parentSegment
  let leafParentKey := createLeafParentKey graphqlKind segment
  let record : RegState → RegState := fun s =>
    let s1 := { s with
      segmentToTypeName := mapSet s.segmentToTypeName key typeName,
      leafToParent := mapSet s.leafToParent leafParentKey (jsOr parentSegment "") }
    (getOrCreateObjectType s1 typeName).2
  match mapGet st.leafToParent leafParentKey with
  | some existingParent =>
      if existingParent ≠ jsOr parentSegment "" then
        .error ("Segment \"" ++ segment ++ "\" is already mapped under \""
          ++ (if existingParent = "" then "<root>" else existingParent) ++ "\"")
      else
        .ok (record st)
  | none => .ok (record st)

/-- `getSegmentMapping(kind, segment, parentSegment?)`: pure lookup. -/
def getSegmentMapping (st : RegState) (graphqlKind : GraphQLKind) (segment : String)
    (parentSegment : Option String) : Option String :=
  mapGet st.segmentToTypeName (createSegmentMappingKey graphqlKind segment parentSegment)

/-- `getParentForLeaf(kind, leaf)`: secondary-index lookup. -/
def getParentForLeaf (st : RegState) (graphqlKind : GraphQLKind) (leaf : String) :
    Option String :=
  mapGet st.leafToParent (createLeafParentKey graphqlKind leaf)

/-- `ensureRoot(kind, rootName, typeName?)`: first creation wins; later
calls return the stored root unchanged. -/
def ensureRoot (st : RegState) (graphqlKind : GraphQLKind) (rootName : String)
    (typeName : Option String) : NamespaceRoot × RegState :=
  let normalizedRootName := normalizeNamespaceName rootName
  let key := createRootKey graphqlKind normalizedRootName
  match mapGet st.roots key with
  | some root => (root, st)
  | none =>
      let resolvedTypeName :=
        jsOr typeName (createDefaultTypeName normalizedRootName graphqlKind)
      let st1 := (getOrCreateObjectType st resolvedTypeName).2
      let root : NamespaceRoot := { graphqlKind := graphqlKind, typeName := resolvedTypeName }
      (root, { st1 with roots := mapSet st1.roots key root })

/-- `ensureEdge(kind, segments, targetTypeName?)`: ensure the root of
`segments[0]`, then (for paths of length at least 2) append the edge
unless an equal edge already exists. -/
def ensureEdge (st : RegState) (graphqlKind : GraphQLKind) (segments : List String)
    (targetTypeName : Option String) : RegState :=
  match segments with
  | [] => st
  | rootName :: _ =>
      let st1 := (ensureRoot st graphqlKind rootName none).2
      if segments.length == 1 then st1
      else
        let last := segments.getLastD ""
        let inferredTypeName := jsOr targetTypeName (createDefaultTypeName last graphqlKind)
        let finalTypeName := jsOr targetTypeName inferredTypeName
        let st2 := (getOrCreateObjectType st1 finalTypeName).2
        let newEdge : NamespaceEdge :=
          { graphqlKind := graphqlKind, segments := segments, targetTypeName := finalTypeName }
        if st2.edges.any (fun edge => edgesAreEqual edge newEdge) then st2
        else { st2 with edges := st2.edges ++ [newEdge] }

/-- `registerField(meta)`: unconditional append. -/
def registerField (st : RegState) (meta : FieldMetadata) : RegState :=
  { st with fields := st.fields ++ [meta] }

/-- `mergeFieldsIntoNamespace(kind, namespace, targetTypeName)`. -/
def mergeFieldsIntoNamespace (st : RegState) (graphqlKind : GraphQLKind)
    (ns : String) (targetTypeName : String) : RegState :=
  let segments := parseNamespaceSegments ns
  if segments.length = 0 then st
  else ensureEdge st graphqlKind segments (some targetTypeName)

/-- `RegistryStats` as returned by `getRegistryStats()`. -/
structure RegistryStats where
  createdTypes : Nat
  roots : Nat
  edges : Nat
  fields : Nat
  mappings : Nat
deriving DecidableEq, Repr

/-- `getRegistryStats()`. -/
def getRegistryStats (st : RegState) : RegistryStats :=
  { createdTypes := st.createdTypes.length, roots := st.roots.length,
    edges := st.edges.length, fields := st.fields.length,
    mappings := st.segmentToTypeName.length }

/-- Path normalization at the top of the per-field compilation loop:
a single-segment path is widened to `[parent, leaf]` when the secondary
index records a truthy (non-empty) parent for the leaf. -/
def effectiveSegments (st : RegState) (meta : FieldMetadata) : List String :=
  match meta.segments with
  | [leaf] =>
      match getParentForLeaf st meta.graphqlKind leaf with
      | some parent => if parent ≠ "" then [parent, leaf] else [leaf]
      | none => [leaf]
  | segs => segs

/-- The `targetTypeName` local of the field loop of `buildDynamicProviders`:
the explicit mapping for (kind, leafSeg, parentSeg) if truthy, else the
inferred name (the root's type for a 1-segment path, the default-derived
name otherwise). Factored out of `processField` so theorems can speak
about the computed target name; `processField` below recombines the same
locals in source order. -/
def fieldTargetTypeName (st : RegState) (meta : FieldMetadata) : String :=
  let segments := effectiveSegments st meta
  let parentSeg : Option String :=
    if segments.length > 1 then some (segments.getD (segments.length - 2) "") else none
  let leafSeg := segments.getLastD ""
  let rootAndSt := ensureRoot st meta.graphqlKind (segments.headD "") none
  let mapped := getSegmentMapping rootAndSt.2 meta.graphqlKind leafSeg parentSeg
  let inferred :=
    if segments.length == 1 then rootAndSt.1.typeName
    else createDefaultTypeName leafSeg meta.graphqlKind
  jsOr mapped inferred

/-- One iteration of the field loop of `buildDynamicProviders`. The source
also files the meta into a local `namespaceFieldsMap` here; that map is
never read afterwards, so it does not appear in the state. (For the
degenerate empty path — never produced by the decorators, which reject an
empty namespace — the source would fault on `segments[0]`; the embedding
reads `""`.) -/
def processField (st : RegState) (meta : FieldMetadata) : RegState :=
  let segments := effectiveSegments st meta
  let st1 := (ensureRoot st meta.graphqlKind (segments.headD "") none).2
  ensureEdge st1 meta.graphqlKind segments (some (fieldTargetTypeName st meta))

/-- The descriptors `buildDynamicProviders` emits: one root resolver per
root entry, one link resolver per surviving edge. The placeholder method
bodies carry no data; the descriptor keeps the binding information. -/
inductive Provider where
  | rootResolver (graphqlKindStr rootName typeName className : String)
  | linkResolver (parentTypeName fieldName childTypeName className : String)
deriving DecidableEq, Repr

/-- One iteration of the root-resolver loop: split the map key back into
kind and root name, ensure the root's type, and emit the descriptor. -/
def rootStep (st : RegState) (entry : String × NamespaceRoot) : Provider × RegState :=
  let parts := jsSplit entry.1 ':'
  let graphqlKindStr := parts.getD 0 ""
  let rootName := parts.getD 1 ""
  let st1 := (getOrCreateObjectType st entry.2.typeName).2
  let className := createResolverClassName entry.2.typeName "RootResolver"
  (Provider.rootResolver graphqlKindStr rootName entry.2.typeName className, st1)

/-- The root-resolver loop over the entries of the roots map. -/
def rootLoop : RegState → List (String × NamespaceRoot) → List Provider × RegState
  | st, [] => ([], st)
  | st, entry :: rest =>
      let pst := rootStep st entry
      let tail := rootLoop pst.2 rest
      (pst.1 :: tail.1, tail.2)

/-- One iteration of the link-resolver loop: root-level edges and edges
whose parent root is missing are skipped (the latter with a development
warning); otherwise one link descriptor is emitted. -/
def linkStep (st : RegState) (edge : NamespaceEdge) : List Provider × RegState :=
  let parentSegments := edge.segments.dropLast
  let fieldName := edge.segments.getLastD ""
  if parentSegments.length == 0 then ([], st)
  else
    let normalizedParentRoot := normalizeNamespaceName (parentSegments.headD "")
    let parentRootKey := createRootKey edge.graphqlKind normalizedParentRoot
    match mapGet st.roots parentRootKey with
    | none => ([], st)
    | some parentRoot =>
        let st1 := (getOrCreateObjectType st parentRoot.typeName).2
        let st2 := (getOrCreateObjectType st1 edge.targetTypeName).2
        let className := createLinkResolverClassName parentRoot.typeName fieldName
        ([Provider.linkResolver parentRoot.typeName fieldName edge.targetTypeName className],
          st2)

/-- The link-resolver loop over the edge list. -/
def linkLoop : RegState → List NamespaceEdge → List Provider × RegState
  | st, [] => ([], st)
  | st, edge :: rest =>
      let pst := linkStep st edge
      let tail := linkLoop pst.2 rest
      (pst.1 ++ tail.1, tail.2)

/-- The single pass of `buildDynamicProviders` over the collected fields. -/
def compileFields (st : RegState) : RegState :=
  st.fields.foldl processField st

/-- `buildDynamicProviders()`: process every collected field, then emit
root resolvers for all roots and link resolvers for all edges. -/
def buildDynamicProviders (st : RegState) : List Provider × RegState :=
  let st1 := compileFields st
  let rootRes := rootLoop st1 st1.roots
  let linkRes := linkLoop rootRes.2 rootRes.2.edges
  (rootRes.1 ++ linkRes.1, linkRes.2)

/-- The edge value `ensureEdge` constructs (its `newEdge` local) for a
path of length at least 2. -/
def ensuredEdge (k : GraphQLKind) (segments : List String) (t : Option String) : NamespaceEdge :=
  let last := segments.getLastD ""
  let inferredTypeName := jsOr t (createDefaultTypeName last k)
  { graphqlKind := k, segments := segments, targetTypeName := jsOr t inferredTypeName }

/-- The invariant of the type cache: names are unique, identifiers are
unique, and every identifier is below the fresh counter. Holds in the
initial state and is preserved by every operation. -/
def typesWF (st : RegState) : Prop :=
  (st.createdTypes.map Prod.fst).Nodup ∧ (st.createdTypes.map Prod.snd).Nodup ∧
    ∀ p ∈ st.createdTypes, p.2 < st.nextTypeId

/-- No two distinct entries of the edge list are equal in the sense of
`edgesAreEqual` (the deduplication invariant of the graph). -/
def edgesNodup (st : RegState) : Prop :=
  st.edges.Pairwise (fun x y => edgesAreEqual x y = false)

/-- The root key the link-resolver loop looks up for an edge. -/
def edgeRootKey (e : NamespaceEdge) : String :=
  createRootKey e.graphqlKind (normalizeNamespaceName (e.segments.dropLast.headD ""))

/-- The graph invariant behind the missing-parent branch: every edge has
a path of length at least 2 and its parent root is present in the roots
map. -/
def graphInv (st : RegState) : Prop :=
  ∀ e ∈ st.edges, 2 ≤ e.segments.length ∧ (mapGet st.roots (edgeRootKey e)).isSome

/-- Registry states reachable through the public operations, starting
from the freshly constructed singleton. (`setDefaultLeafTypeForClass`
affects the modelled state exactly as `getOrCreateObjectType` does, so it
is covered by that constructor.) -/
inductive Reachable : RegState → Prop where
  | init : Reachable initState
  | setSegmentMapping {st st' : RegState} (k : GraphQLKind) (segment typeName : String)
      (parentSegment : Option String) :
      Reachable st → setSegmentMapping st k segment typeName parentSegment = .ok st' →
      Reachable st'
  | getOrCreateObjectType {st : RegState} (n : String) :
      Reachable st → Reachable (getOrCreateObjectType st n).2
  | ensureRoot {st : RegState} (k : GraphQLKind) (n : String) (t : Option String) :
      Reachable st → Reachable (ensureRoot st k n t).2
  | ensureEdge {st : RegState} (k : GraphQLKind) (segs : List String) (t : Option String) :
      Reachable st → Reachable (ensureEdge st k segs t)
  | registerField {st : RegState} (meta : FieldMetadata) :
      Reachable st → Reachable (registerField st meta)
  | mergeFieldsIntoNamespace {st : RegState} (k : GraphQLKind) (ns targetTypeName : String) :
      Reachable st → Reachable (mergeFieldsIntoNamespace st k ns targetTypeName)
  | buildDynamicProviders {st : RegState} :
      Reachable st → Reachable (buildDynamicProviders st).2

/-! ## Lemmas about the map model -/

theorem mapGet_nil {α : Type} (k : String) : mapGet ([] : List (String × α)) k = none := rfl

theorem mapGet_cons {α : Type} (pk : String) (pv : α) (rest : List (String × α)) (k : String) :
    mapGet ((pk, pv) :: rest) k = if pk = k then some pv else mapGet rest k := by
  by_cases h : pk = k <;> simp [mapGet, List.find?_cons, h]

theorem mapGet_mapSet {α : Type} (m : List (String × α)) (k k' : String) (v : α) :
    mapGet (mapSet m k v) k' = if k' = k then some v else mapGet m k' := by
  induction m with
  | nil =>
      by_cases h : k' = k
      · rw [show mapSet ([] : List (String × α)) k v = [(k, v)] from rfl,
          mapGet_cons, if_pos h.symm, if_pos h]
      · rw [show mapSet ([] : List (String × α)) k v = [(k, v)] from rfl,
          mapGet_cons, if_neg (fun e => h e.symm), if_neg h]
  | cons p rest ih =>
      obtain ⟨pk, pv⟩ := p
      by_cases hpk : pk = k
      · subst hpk
        simp only [mapSet, beq_self_eq_true, if_true]
        by_cases h : k' = pk
        · subst h
          rw [mapGet_cons, if_pos rfl, if_pos rfl]
        · rw [mapGet_cons, if_neg (fun e => h e.symm), if_neg h, mapGet_cons,
            if_neg (fun e => h e.symm)]
      · have hpk' : (pk == k) = false := beq_eq_false_iff_ne.mpr hpk
        simp only [mapSet, hpk', Bool.false_eq_true, if_false]
        by_cases h : pk = k'
        · subst h
          rw [mapGet_cons, if_pos rfl, if_neg hpk, mapGet_cons, if_pos rfl]
        · rw [mapGet_cons, if_neg h, ih, mapGet_cons, if_neg h]

theorem mapGet_mapSet_self {α : Type} (m : List (String × α)) (k : String) (v : α) :
    mapGet (mapSet m k v) k = some v := by
  simp [mapGet_mapSet]

theorem mapGet_mapSet_ne {α : Type} (m : List (String × α)) {k k' : String} (v : α)
    (h : k' ≠ k) : mapGet (mapSet m k v) k' = mapGet m k' := by
  simp [mapGet_mapSet, h]

theorem isSome_mapGet_mapSet {α : Type} (m : List (String × α)) (k k' : String) (v : α)
    (h : (mapGet m k').isSome) : (mapGet (mapSet m k v) k').isSome := by
  rw [mapGet_mapSet]
  by_cases hk : k' = k <;> simp [hk, h]

theorem mem_of_mapGet_eq_some {α : Type} {m : List (String × α)} {k : String} {v : α}
    (h : mapGet m k = some v) : (k, v) ∈ m := by
  induction m with
  | nil => simp [mapGet] at h
  | cons p rest ih =>
      obtain ⟨pk, pv⟩ := p
      rw [mapGet_cons] at h
      by_cases hp : pk = k
      · rw [if_pos hp] at h
        obtain rfl : pv = v := by simpa using h
        subst hp
        exact List.mem_cons_self _ _
      · rw [if_neg hp] at h
        exact List.mem_cons_of_mem _ (ih h)

/-! ## Component lemmas: which parts of the state each operation touches -/

theorem getOrCreate_roots (st : RegState) (n : String) :
    ((getOrCreateObjectType st n).2).roots = st.roots := by
  unfold getOrCreateObjectType
  cases mapGet st.createdTypes n <;> rfl

theorem getOrCreate_edges (st : RegState) (n : String) :
    ((getOrCreateObjectType st n).2).edges = st.edges := by
  unfold getOrCreateObjectType
  cases mapGet st.createdTypes n <;> rfl

theorem getOrCreate_fields (st : RegState) (n : String) :
    ((getOrCreateObjectType st n).2).fields = st.fields := by
  unfold getOrCreateObjectType
  cases mapGet st.createdTypes n <;> rfl

theorem getOrCreate_segmentToTypeName (st : RegState) (n : String) :
    ((getOrCreateObjectType st n).2).segmentToTypeName = st.segmentToTypeName := by
  unfold getOrCreateObjectType
  cases mapGet st.createdTypes n <;> rfl

theorem getOrCreate_leafToParent (st : RegState) (n : String) :
    ((getOrCreateObjectType st n).2).leafToParent = st.leafToParent := by
  unfold getOrCreateObjectType
  cases mapGet st.createdTypes n <;> rfl

theorem getOrCreate_lookup (st : RegState) (n : String) :
    mapGet ((getOrCreateObjectType st n).2).createdTypes n
      = some (getOrCreateObjectType st n).1 := by
  unfold getOrCreateObjectType
  cases h : mapGet st.createdTypes n with
  | none => simpa using mapGet_mapSet_self st.createdTypes n st.nextTypeId
  | some i => simpa using h

theorem getOrCreate_of_found {st : RegState} {n : String} {i : Nat}
    (h : mapGet st.createdTypes n = some i) : getOrCreateObjectType st n = (i, st) := by
  unfold getOrCreateObjectType
  rw [h]

theorem getOrCreate_getOrCreate (st : RegState) (n : String) :
    getOrCreateObjectType ((getOrCreateObjectType st n).2) n
      = ((getOrCreateObjectType st n).1, (getOrCreateObjectType st n).2) :=
  getOrCreate_of_found (getOrCreate_lookup st n)

theorem getOrCreate_createdTypes_mono (st : RegState) (n m : String)
    (h : (mapGet st.createdTypes m).isSome) :
    (mapGet ((getOrCreateObjectType st n).2).createdTypes m).isSome := by
  unfold getOrCreateObjectType
  cases hn : mapGet st.createdTypes n with
  | some i => exact h
  | none => exact isSome_mapGet_mapSet _ _ _ _ h

/-! ## Lemmas about `ensureRoot` -/

theorem ensureRoot_edges (st : RegState) (k : GraphQLKind) (n : String) (t : Option String) :
    ((ensureRoot st k n t).2).edges = st.edges := by
  unfold ensureRoot
  cases h : mapGet st.roots (createRootKey k (normalizeNamespaceName n)) <;>
    simp [h, getOrCreate_edges]

theorem ensureRoot_fields (st : RegState) (k : GraphQLKind) (n : String) (t : Option String) :
    ((ensureRoot st k n t).2).fields = st.fields := by
  unfold ensureRoot
  cases h : mapGet st.roots (createRootKey k (normalizeNamespaceName n)) <;>
    simp [h, getOrCreate_fields]

theorem ensureRoot_segmentToTypeName (st : RegState) (k : GraphQLKind) (n : String)
    (t : Option String) :
    ((ensureRoot st k n t).2).segmentToTypeName = st.segmentToTypeName := by
  unfold ensureRoot
  cases h : mapGet st.roots (createRootKey k (normalizeNamespaceName n)) <;>
    simp [h, getOrCreate_segmentToTypeName]

theorem ensureRoot_leafToParent (st : RegState) (k : GraphQLKind) (n : String)
    (t : Option String) :
    ((ensureRoot st k n t).2).leafToParent = st.leafToParent := by
  unfold ensureRoot
  cases h : mapGet st.roots (createRootKey k (normalizeNamespaceName n)) <;>
    simp [h, getOrCreate_leafToParent]

theorem ensureRoot_of_found {st : RegState} {k : GraphQLKind} {n : String} {r : NamespaceRoot}
    (t : Option String)
    (h : mapGet st.roots (createRootKey k (normalizeNamespaceName n)) = some r) :
    ensureRoot st k n t = (r, st) := by
  unfold ensureRoot
  simp only [h]

theorem ensureRoot_lookup (st : RegState) (k : GraphQLKind) (n : String) (t : Option String) :
    mapGet ((ensureRoot st k n t).2).roots (createRootKey k (normalizeNamespaceName n))
      = some (ensureRoot st k n t).1 := by
  unfold ensureRoot
  cases hf : mapGet st.roots (createRootKey k (normalizeNamespaceName n)) with
  | some r => simp only [hf]
  | none =>
      simp only [hf]
      exact mapGet_mapSet_self _ _ _

theorem ensureRoot_roots_mono (st : RegState) (k : GraphQLKind) (n : String)
    (t : Option String) {key : String} {r : NamespaceRoot}
    (h : mapGet st.roots key = some r) :
    mapGet ((ensureRoot st k n t).2).roots key = some r := by
  unfold ensureRoot
  cases hf : mapGet st.roots (createRootKey k (normalizeNamespaceName n)) with
  | some r0 =>
      simp only [hf]
      exact h
  | none =>
      have hne : key ≠ createRootKey k (normalizeNamespaceName n) := by
        intro e
        rw [e, hf] at h
        exact Option.noConfusion h
      simp only [hf]
      rw [mapGet_mapSet_ne _ _ hne, getOrCreate_roots]
      exact h

theorem ensureRoot_createdTypes_mono (st : RegState) (k : GraphQLKind) (n : String)
    (t : Option String) (m : String) (h : (mapGet st.createdTypes m).isSome) :
    (mapGet ((ensureRoot st k n t).2).createdTypes m).isSome := by
  unfold ensureRoot
  cases hf : mapGet st.roots (createRootKey k (normalizeNamespaceName n)) with
  | some r0 =>
      simp only [hf]
      exact h
  | none =>
      simp only [hf]
      exact getOrCreate_createdTypes_mono st _ m h

theorem ensureRoot_ensureRoot (st : RegState) (k : GraphQLKind) (n n' : String)
    (t t' : Option String) (hn : normalizeNamespaceName n' = normalizeNamespaceName n) :
    ensureRoot ((ensureRoot st k n t).2) k n' t'
      = ((ensureRoot st k n t).1, (ensureRoot st k n t).2) := by
  apply ensureRoot_of_found
  rw [show createRootKey k (normalizeNamespaceName n')
        = createRootKey k (normalizeNamespaceName n) by rw [hn]]
  exact ensureRoot_lookup st k n t

/-! ## Lemmas about `edgesAreEqual` -/

theorem edgesAreEqual_refl (e : NamespaceEdge) : edgesAreEqual e e = true := by
  simp [edgesAreEqual]

theorem edgesAreEqual_symm {a b : NamespaceEdge} (h : edgesAreEqual a b = true) :
    edgesAreEqual b a = true := by
  simp only [edgesAreEqual, Bool.and_eq_true, beq_iff_eq] at h ⊢
  exact ⟨⟨h.1.1.symm, h.1.2.symm⟩, h.2.symm⟩

theorem edgesAreEqual_trans {a b c : NamespaceEdge} (hab : edgesAreEqual a b = true)
    (hbc : edgesAreEqual b c = true) : edgesAreEqual a c = true := by
  simp only [edgesAreEqual, Bool.and_eq_true, beq_iff_eq] at hab hbc ⊢
  exact ⟨⟨hab.1.1.trans hbc.1.1, hab.1.2.trans hbc.1.2⟩, hab.2.trans hbc.2⟩

/-! ## Lemmas about `ensureEdge` -/

theorem ensureEdge_nil (st : RegState) (k : GraphQLKind) (t : Option String) :
    ensureEdge st k [] t = st := rfl

theorem ensureEdge_single (st : RegState) (k : GraphQLKind) (a : String) (t : Option String) :
    ensureEdge st k [a] t = (ensureRoot st k a none).2 := by
  unfold ensureEdge
  simp

theorem ensureEdge_cons₂ (st : RegState) (k : GraphQLKind) (a b : String) (rest : List String)
    (t : Option String) :
    ensureEdge st k (a :: b :: rest) t =
      (let e := ensuredEdge k (a :: b :: rest) t
       let st2 := (getOrCreateObjectType ((ensureRoot st k a none).2) e.targetTypeName).2
       if st2.edges.any (fun edge => edgesAreEqual edge e) then st2
       else { st2 with edges := st2.edges ++ [e] }) := by
  have h1 : ((a :: b :: rest).length == 1) = false := by simp
  unfold ensureEdge ensuredEdge
  simp only [h1, Bool.false_eq_true, if_false]

theorem ensureEdge_fields (st : RegState) (k : GraphQLKind) (segs : List String)
    (t : Option String) : (ensureEdge st k segs t).fields = st.fields := by
  match segs with
  | [] => rfl
  | [a] => rw [ensureEdge_single, ensureRoot_fields]
  | a :: b :: rest =>
      rw [ensureEdge_cons₂]
      dsimp only
      split <;> simp [getOrCreate_fields, ensureRoot_fields]

theorem ensureEdge_segmentToTypeName (st : RegState) (k : GraphQLKind) (segs : List String)
    (t : Option String) : (ensureEdge st k segs t).segmentToTypeName = st.segmentToTypeName := by
  match segs with
  | [] => rfl
  | [a] => rw [ensureEdge_single, ensureRoot_segmentToTypeName]
  | a :: b :: rest =>
      rw [ensureEdge_cons₂]
      dsimp only
      split <;> simp [getOrCreate_segmentToTypeName, ensureRoot_segmentToTypeName]

theorem ensureEdge_leafToParent (st : RegState) (k : GraphQLKind) (segs : List String)
    (t : Option String) : (ensureEdge st k segs t).leafToParent = st.leafToParent := by
  match segs with
  | [] => rfl
  | [a] => rw [ensureEdge_single, ensureRoot_leafToParent]
  | a :: b :: rest =>
      rw [ensureEdge_cons₂]
      dsimp only
      split <;> simp [getOrCreate_leafToParent, ensureRoot_leafToParent]

theorem ensureEdge_edges_cons₂ (st : RegState) (k : GraphQLKind) (a b : String)
    (rest : List String) (t : Option String) :
    (ensureEdge st k (a :: b :: rest) t).edges =
      (if st.edges.any (fun edge => edgesAreEqual edge (ensuredEdge k (a :: b :: rest) t))
       then st.edges
       else st.edges ++ [ensuredEdge k (a :: b :: rest) t]) := by
  rw [ensureEdge_cons₂]
  dsimp only
  rw [getOrCreate_edges, ensureRoot_edges]
  split <;> simp [getOrCreate_edges, ensureRoot_edges]

theorem ensureEdge_roots_mono (st : RegState) (k : GraphQLKind) (segs : List String)
    (t : Option String) {key : String} {r : NamespaceRoot}
    (h : mapGet st.roots key = some r) :
    mapGet (ensureEdge st k segs t).roots key = some r := by
  match segs with
  | [] => exact h
  | [a] =>
      rw [ensureEdge_single]
      exact ensureRoot_roots_mono st k a none h
  | a :: b :: rest =>
      rw [ensureEdge_cons₂]
      dsimp only
      split <;>
        simpa [getOrCreate_roots] using ensureRoot_roots_mono st k a none h

theorem ensureEdge_rootKey_present (st : RegState) (k : GraphQLKind) (a : String)
    (tail : List String) (t : Option String) :
    (mapGet (ensureEdge st k (a :: tail) t).roots
      (createRootKey k (normalizeNamespaceName a))).isSome := by
  match tail with
  | [] =>
      rw [ensureEdge_single]
      rw [ensureRoot_lookup]
      rfl
  | b :: rest =>
      rw [ensureEdge_cons₂]
      dsimp only
      have base : mapGet ((ensureRoot st k a none).2).roots
          (createRootKey k (normalizeNamespaceName a)) = some (ensureRoot st k a none).1 :=
        ensureRoot_lookup st k a none
      split <;> simp [getOrCreate_roots, base]

theorem ensureEdge_createdTypes_mono (st : RegState) (k : GraphQLKind) (segs : List String)
    (t : Option String) (m : String) (h : (mapGet st.createdTypes m).isSome) :
    (mapGet (ensureEdge st k segs t).createdTypes m).isSome := by
  match segs with
  | [] => exact h
  | [a] =>
      rw [ensureEdge_single]
      exact ensureRoot_createdTypes_mono st k a none m h
  | a :: b :: rest =>
      rw [ensureEdge_cons₂]
      dsimp only
      split <;>
        simpa using getOrCreate_createdTypes_mono ((ensureRoot st k a none).2) _ m
          (ensureRoot_createdTypes_mono st k a none m h)

theorem ensureEdge_target_present (st : RegState) (k : GraphQLKind) (a b : String)
    (rest : List String) (t : Option String) :
    (mapGet (ensureEdge st k (a :: b :: rest) t).createdTypes
      (ensuredEdge k (a :: b :: rest) t).targetTypeName).isSome := by
  rw [ensureEdge_cons₂]
  dsimp only
  have : (mapGet ((getOrCreateObjectType ((ensureRoot st k a none).2)
      (ensuredEdge k (a :: b :: rest) t).targetTypeName).2).createdTypes
      (ensuredEdge k (a :: b :: rest) t).targetTypeName).isSome := by
    rw [getOrCreate_lookup]
    rfl
  split <;> simpa using this

theorem ensureEdge_any_true (st : RegState) (k : GraphQLKind) (a b : String)
    (rest : List String) (t : Option String) :
    (ensureEdge st k (a :: b :: rest) t).edges.any
      (fun edge => edgesAreEqual edge (ensuredEdge k (a :: b :: rest) t)) = true := by
  rw [ensureEdge_edges_cons₂]
  split
  · assumption
  · simp [List.any_append, edgesAreEqual_refl]

/-- A second `ensureEdge` with the same arguments is a complete no-op:
the root, the target type and an equal edge are already present. -/
theorem ensureEdge_ensureEdge (st : RegState) (k : GraphQLKind) (a b : String)
    (rest : List String) (t : Option String) :
    ensureEdge (ensureEdge st k (a :: b :: rest) t) k (a :: b :: rest) t
      = ensureEdge st k (a :: b :: rest) t := by
  obtain ⟨r, hr⟩ := Option.isSome_iff_exists.mp (ensureEdge_rootKey_present st k a (b :: rest) t)
  obtain ⟨i, hi⟩ := Option.isSome_iff_exists.mp (ensureEdge_target_present st k a b rest t)
  rw [ensureEdge_cons₂]
  dsimp only
  rw [ensureRoot_of_found none hr]
  dsimp only
  rw [getOrCreate_of_found hi]
  dsimp only
  rw [if_pos]
  exact ensureEdge_any_true st k a b rest t

/-! ## Component lemmas for the compilation pipeline -/

theorem processField_fields (st : RegState) (meta : FieldMetadata) :
    (processField st meta).fields = st.fields := by
  unfold processField
  rw [ensureEdge_fields, ensureRoot_fields]

theorem processField_segmentToTypeName (st : RegState) (meta : FieldMetadata) :
    (processField st meta).segmentToTypeName = st.segmentToTypeName := by
  unfold processField
  rw [ensureEdge_segmentToTypeName, ensureRoot_segmentToTypeName]

theorem processField_leafToParent (st : RegState) (meta : FieldMetadata) :
    (processField st meta).leafToParent = st.leafToParent := by
  unfold processField
  rw [ensureEdge_leafToParent, ensureRoot_leafToParent]

theorem foldl_processField_fields (l : List FieldMetadata) (st : RegState) :
    (l.foldl processField st).fields = st.fields := by
  induction l generalizing st with
  | nil => rfl
  | cons m rest ih => rw [List.foldl_cons, ih, processField_fields]

theorem compileFields_fields (st : RegState) :
    (compileFields st).fields = st.fields :=
  foldl_processField_fields st.fields st

theorem rootStep_roots (st : RegState) (entry : String × NamespaceRoot) :
    ((rootStep st entry).2).roots = st.roots := by
  unfold rootStep
  exact getOrCreate_roots st entry.2.typeName

theorem rootStep_edges (st : RegState) (entry : String × NamespaceRoot) :
    ((rootStep st entry).2).edges = st.edges := by
  unfold rootStep
  exact getOrCreate_edges st entry.2.typeName

theorem rootStep_fields (st : RegState) (entry : String × NamespaceRoot) :
    ((rootStep st entry).2).fields = st.fields := by
  unfold rootStep
  exact getOrCreate_fields st entry.2.typeName

theorem rootLoop_roots (l : List (String × NamespaceRoot)) (st : RegState) :
    ((rootLoop st l).2).roots = st.roots := by
  induction l generalizing st with
  | nil => rfl
  | cons entry rest ih =>
      show ((rootLoop (rootStep st entry).2 rest).2).roots = st.roots
      rw [ih, rootStep_roots]

theorem rootLoop_edges (l : List (String × NamespaceRoot)) (st : RegState) :
    ((rootLoop st l).2).edges = st.edges := by
  induction l generalizing st with
  | nil => rfl
  | cons entry rest ih =>
      show ((rootLoop (rootStep st entry).2 rest).2).edges = st.edges
      rw [ih, rootStep_edges]

theorem rootLoop_fields (l : List (String × NamespaceRoot)) (st : RegState) :
    ((rootLoop st l).2).fields = st.fields := by
  induction l generalizing st with
  | nil => rfl
  | cons entry rest ih =>
      show ((rootLoop (rootStep st entry).2 rest).2).fields = st.fields
      rw [ih, rootStep_fields]

theorem linkStep_roots (st : RegState) (edge : NamespaceEdge) :
    ((linkStep st edge).2).roots = st.roots := by
  unfold linkStep
  dsimp only
  split
  · rfl
  · split
    · rfl
    · simp [getOrCreate_roots]

theorem linkStep_edges (st : RegState) (edge : NamespaceEdge) :
    ((linkStep st edge).2).edges = st.edges := by
  unfold linkStep
  dsimp only
  split
  · rfl
  · split
    · rfl
    · simp [getOrCreate_edges]

theorem linkStep_fields (st : RegState) (edge : NamespaceEdge) :
    ((linkStep st edge).2).fields = st.fields := by
  unfold linkStep
  dsimp only
  split
  · rfl
  · split
    · rfl
    · simp [getOrCreate_fields]

theorem linkLoop_roots (l : List NamespaceEdge) (st : RegState) :
    ((linkLoop st l).2).roots = st.roots := by
  induction l generalizing st with
  | nil => rfl
  | cons edge rest ih =>
      show ((linkLoop (linkStep st edge).2 rest).2).roots = st.roots
      rw [ih, linkStep_roots]

theorem linkLoop_edges (l : List NamespaceEdge) (st : RegState) :
    ((linkLoop st l).2).edges = st.edges := by
  induction l generalizing st with
  | nil => rfl
  | cons edge rest ih =>
      show ((linkLoop (linkStep st edge).2 rest).2).edges = st.edges
      rw [ih, linkStep_edges]

theorem linkLoop_fields (l : List NamespaceEdge) (st : RegState) :
    ((linkLoop st l).2).fields = st.fields := by
  induction l generalizing st with
  | nil => rfl
  | cons edge rest ih =>
      show ((linkLoop (linkStep st edge).2 rest).2).fields = st.fields
      rw [ih, linkStep_fields]

theorem buildDynamicProviders_fields (st : RegState) :
    ((buildDynamicProviders st).2).fields = st.fields := by
  unfold buildDynamicProviders
  dsimp only
  rw [linkLoop_fields, rootLoop_fields, compileFields_fields]

theorem buildDynamicProviders_edges (st : RegState) :
    ((buildDynamicProviders st).2).edges = (compileFields st).edges := by
  unfold buildDynamicProviders
  dsimp only
  rw [linkLoop_edges, rootLoop_edges]

theorem buildDynamicProviders_roots (st : RegState) :
    ((buildDynamicProviders st).2).roots = (compileFields st).roots := by
  unfold buildDynamicProviders
  dsimp only
  rw [linkLoop_roots, rootLoop_roots]

/-! ## Well-formedness of the type cache -/

theorem mapGet_eq_none_forall {α : Type} {m : List (String × α)} {k : String}
    (h : mapGet m k = none) : ∀ p ∈ m, p.1 ≠ k := by
  intro p hp he
  induction m with
  | nil => simp at hp
  | cons q rest ih =>
      obtain ⟨qk, qv⟩ := q
      rw [mapGet_cons] at h
      rcases List.mem_cons.mp hp with rfl | hmem
      · rw [if_pos he] at h
        exact Option.noConfusion h
      · by_cases hq : qk = k
        · rw [if_pos hq] at h
          exact Option.noConfusion h
        · rw [if_neg hq] at h
          exact ih h hmem

theorem mapSet_of_get_none {α : Type} {m : List (String × α)} {k : String} (v : α)
    (h : mapGet m k = none) : mapSet m k v = m ++ [(k, v)] := by
  induction m with
  | nil => rfl
  | cons q rest ih =>
      obtain ⟨qk, qv⟩ := q
      rw [mapGet_cons] at h
      by_cases hq : qk = k
      · rw [if_pos hq] at h
        exact Option.noConfusion h
      · rw [if_neg hq] at h
        have hqb : (qk == k) = false := beq_eq_false_iff_ne.mpr hq
        simp only [mapSet, hqb, Bool.false_eq_true, if_false, List.cons_append]
        rw [ih h]

theorem edgesNodup_initState : edgesNodup initState := List.Pairwise.nil

theorem typesWF_initState : typesWF initState := by
  refine ⟨List.nodup_nil, List.nodup_nil, ?_⟩
  intro p hp
  simp [initState] at hp

theorem getOrCreate_wf {st : RegState} (n : String) (h : typesWF st) :
    typesWF ((getOrCreateObjectType st n).2) := by
  obtain ⟨hkeys, hvals, hbound⟩ := h
  unfold getOrCreateObjectType
  cases hn : mapGet st.createdTypes n with
  | some i => exact ⟨hkeys, hvals, hbound⟩
  | none =>
      dsimp only
      rw [mapSet_of_get_none _ hn]
      refine ⟨?_, ?_, ?_⟩
      · rw [List.map_append]
        rw [List.nodup_append]
        refine ⟨hkeys, List.nodup_singleton _, ?_⟩
        intro x hx hx'
        simp only [List.map_cons, List.map_nil, List.mem_singleton] at hx'
        obtain ⟨p, hp, rfl⟩ := List.mem_map.mp hx
        exact mapGet_eq_none_forall hn p hp hx'
      · rw [List.map_append]
        rw [List.nodup_append]
        refine ⟨hvals, List.nodup_singleton _, ?_⟩
        intro x hx hx'
        simp only [List.map_cons, List.map_nil, List.mem_singleton] at hx'
        obtain ⟨p, hp, rfl⟩ := List.mem_map.mp hx
        exact absurd (hx' ▸ hbound p hp) (lt_irrefl _)
      · intro p hp
        rcases List.mem_append.mp hp with hmem | hmem
        · exact Nat.lt_succ_of_lt (hbound p hmem)
        · simp only [List.mem_singleton] at hmem
          subst hmem
          exact Nat.lt_succ_self _

/-- Distinct keys carry distinct values when the value list is nodup. -/
theorem mapGet_injective {α : Type} [DecidableEq α] {m : List (String × α)}
    (hvals : (m.map Prod.snd).Nodup) {x y : String} {a b : α}
    (hx : mapGet m x = some a) (hy : mapGet m y = some b) (hne : x ≠ y) : a ≠ b := by
  intro hab
  have hxm := mem_of_mapGet_eq_some hx
  have hym := mem_of_mapGet_eq_some hy
  have : (x, a) = (y, b) :=
    List.inj_on_of_nodup_map hvals hxm hym (by simpa using hab)
  exact hne (congrArg Prod.fst this)

theorem getOrCreate_fst_of_none {st : RegState} {n : String}
    (h : mapGet st.createdTypes n = none) :
    (getOrCreateObjectType st n).1 = st.nextTypeId := by
  unfold getOrCreateObjectType
  rw [h]

/-- `ensureEdge` preserves the deduplication invariant of the edge list. -/
theorem edgesNodup_ensureEdge (st : RegState) (k : GraphQLKind) (segs : List String)
    (t : Option String) (hnd : edgesNodup st) : edgesNodup (ensureEdge st k segs t) := by
  match segs with
  | [] => exact hnd
  | [a] =>
      unfold edgesNodup
      rw [ensureEdge_single, ensureRoot_edges]
      exact hnd
  | a :: b :: rest =>
      unfold edgesNodup
      rw [ensureEdge_edges_cons₂]
      split
      · exact hnd
      · rename_i hany
        rw [List.pairwise_append]
        refine ⟨hnd, List.pairwise_singleton _ _, ?_⟩
        intro x hx y hy
        simp only [List.mem_singleton] at hy
        subst hy
        cases hxe : edgesAreEqual x (ensuredEdge k (a :: b :: rest) t) with
        | false => rfl
        | true => exact absurd (List.any_eq_true.mpr ⟨x, hx, hxe⟩) hany

/-- In a list of pairwise non-equal edges, an edge that occurs (up to
`edgesAreEqual`) occurs exactly once. -/
theorem countP_eq_one_of_pairwise (l : List NamespaceEdge) (e : NamespaceEdge)
    (hp : l.Pairwise (fun x y => edgesAreEqual x y = false))
    (hex : l.any (fun x => edgesAreEqual x e) = true) :
    l.countP (fun x => edgesAreEqual x e) = 1 := by
  induction l with
  | nil => simp at hex
  | cons x rest ih =>
      obtain ⟨hx, hrest⟩ := List.pairwise_cons.mp hp
      cases hxe : edgesAreEqual x e with
      | true =>
          have hzero : rest.countP (fun y => edgesAreEqual y e) = 0 := by
            apply List.countP_eq_zero.mpr
            intro y hy hye
            have hxy : edgesAreEqual x y = true :=
              edgesAreEqual_trans hxe (edgesAreEqual_symm hye)
            rw [hx y hy] at hxy
            exact Bool.noConfusion hxy
          rw [List.countP_cons_of_pos (fun y => edgesAreEqual y e) rest (by exact hxe), hzero]
      | false =>
          have hrest' : rest.any (fun y => edgesAreEqual y e) = true := by
            rw [List.any_cons, hxe, Bool.false_or] at hex
            exact hex
          rw [List.countP_cons_of_neg (fun y => edgesAreEqual y e) rest (by simp [hxe])]
          exact ih hrest hrest'

/-! ## The field loop: normalization and target-name characterization -/

theorem jsOr_none (d : String) : jsOr none d = d := rfl

theorem jsOr_some_of_ne {s : String} (d : String) (h : s ≠ "") : jsOr (some s) d = s := by
  simp [jsOr, h]

theorem jsOr_ne_empty {d : String} (o : Option String) (hd : d ≠ "") : jsOr o d ≠ "" := by
  cases o with
  | none => exact hd
  | some s =>
      by_cases hs : s = ""
      · simp only [jsOr, hs, if_true]
        exact hd
      · simp only [jsOr, hs, if_false]
        exact hs

theorem createDefaultTypeName_ne_empty (s : String) (k : GraphQLKind) :
    createDefaultTypeName s k ≠ "" := by
  intro h
  have hd := congrArg String.length h
  cases k
  · rw [show createDefaultTypeName s .Mutation = pascalCase s ++ "Mutations" from rfl,
      String.length_append, show ("Mutations" : String).length = 9 from rfl,
      show ("" : String).length = 0 from rfl] at hd
    omega
  · rw [show createDefaultTypeName s .Query = pascalCase s ++ "Queries" from rfl,
      String.length_append, show ("Queries" : String).length = 7 from rfl,
      show ("" : String).length = 0 from rfl] at hd
    omega

theorem joinDot_pair (a b : String) : joinDot [a, b] = a ++ "." ++ b := by
  simp [joinDot, String.intercalate, String.intercalate.go]

theorem joinDot_pair_ne {p1 p2 : String} (s : String) (h : p1 ≠ p2) :
    joinDot [p1, s] ≠ joinDot [p2, s] := by
  intro he
  rw [joinDot_pair, joinDot_pair] at he
  apply h
  have hd := congrArg String.data he
  simp only [String.data_append] at hd
  rw [List.append_assoc, List.append_assoc] at hd
  exact String.ext (List.append_cancel_right hd)

theorem getSegmentMapping_ensureRoot (st : RegState) (k k' : GraphQLKind) (n : String)
    (t : Option String) (segment : String) (parentSegment : Option String) :
    getSegmentMapping ((ensureRoot st k n t).2) k' segment parentSegment
      = getSegmentMapping st k' segment parentSegment := by
  unfold getSegmentMapping
  rw [ensureRoot_segmentToTypeName]

theorem effectiveSegments_single_mapped (st : RegState) (k : GraphQLKind) (leaf f p : String)
    (hp : getParentForLeaf st k leaf = some p) (hne : p ≠ "") :
    effectiveSegments st ⟨k, [leaf], f⟩ = [p, leaf] := by
  unfold effectiveSegments
  simp only [hp, if_pos hne]

theorem effectiveSegments_single_unmapped (st : RegState) (k : GraphQLKind) (leaf f : String)
    (hp : getParentForLeaf st k leaf = none ∨ getParentForLeaf st k leaf = some "") :
    effectiveSegments st ⟨k, [leaf], f⟩ = [leaf] := by
  unfold effectiveSegments
  rcases hp with hp | hp <;> simp [hp]

theorem effectiveSegments_long (st : RegState) (k : GraphQLKind) (a b : String)
    (rest : List String) (f : String) :
    effectiveSegments st ⟨k, a :: b :: rest, f⟩ = a :: b :: rest := rfl

/-- The target name of the field loop for an effective path of length at
least 2: the explicit mapping if truthy, else the default-derived name. -/
theorem fieldTargetTypeName_long (st : RegState) (meta : FieldMetadata) (a b : String)
    (rest : List String) (hseg : effectiveSegments st meta = a :: b :: rest) :
    fieldTargetTypeName st meta
      = jsOr (getSegmentMapping st meta.graphqlKind ((a :: b :: rest).getLastD "")
            (some ((a :: b :: rest).getD ((a :: b :: rest).length - 2) "")))
          (createDefaultTypeName ((a :: b :: rest).getLastD "") meta.graphqlKind) := by
  unfold fieldTargetTypeName
  rw [hseg]
  have hgt : (a :: b :: rest).length > 1 := by
    simp only [List.length_cons]
    omega
  have hne1 : ((a :: b :: rest).length == 1) = false := by
    simp only [List.length_cons]
    simp
  simp only [if_pos hgt, hne1, Bool.false_eq_true, if_false,
    getSegmentMapping_ensureRoot]

theorem fieldTargetTypeName_long_ne_empty (st : RegState) (meta : FieldMetadata)
    (a b : String) (rest : List String) (hseg : effectiveSegments st meta = a :: b :: rest) :
    fieldTargetTypeName st meta ≠ "" := by
  rw [fieldTargetTypeName_long st meta a b rest hseg]
  exact jsOr_ne_empty _ (createDefaultTypeName_ne_empty _ _)

theorem ensuredEdge_some_of_ne (k : GraphQLKind) (segs : List String) {T : String}
    (hT : T ≠ "") : ensuredEdge k segs (some T)
      = { graphqlKind := k, segments := segs, targetTypeName := T } := by
  unfold ensuredEdge
  simp [jsOr_some_of_ne _ hT]

/-- The edge list produced by one field-loop iteration whose effective
path has length at least 2: the edge (kind, effective path, computed
target name) is appended unless an equal edge exists. -/
theorem processField_edges_long (st : RegState) (meta : FieldMetadata) (a b : String)
    (rest : List String) (hseg : effectiveSegments st meta = a :: b :: rest) :
    (processField st meta).edges
      = (if st.edges.any (fun x => edgesAreEqual x
            ⟨meta.graphqlKind, a :: b :: rest, fieldTargetTypeName st meta⟩)
         then st.edges
         else st.edges
            ++ [⟨meta.graphqlKind, a :: b :: rest, fieldTargetTypeName st meta⟩]) := by
  have hT := fieldTargetTypeName_long_ne_empty st meta a b rest hseg
  unfold processField
  rw [hseg]
  rw [ensureEdge_edges_cons₂, ensuredEdge_some_of_ne _ _ hT, ensureRoot_edges]

/-- A 2-segment registration compiled against an empty mapping table gets
the default-derived target name, and appends its edge unless an equal one
exists. -/
theorem processField_two_fresh (st : RegState) (k : GraphQLKind) (pa leaf f : String)
    (hmap : st.segmentToTypeName = []) :
    fieldTargetTypeName st ⟨k, [pa, leaf], f⟩ = createDefaultTypeName leaf k
      ∧ (processField st ⟨k, [pa, leaf], f⟩).edges
        = (if st.edges.any (fun x => edgesAreEqual x
              ⟨k, [pa, leaf], createDefaultTypeName leaf k⟩)
           then st.edges
           else st.edges ++ [⟨k, [pa, leaf], createDefaultTypeName leaf k⟩]) := by
  have hT : fieldTargetTypeName st ⟨k, [pa, leaf], f⟩ = createDefaultTypeName leaf k := by
    rw [fieldTargetTypeName_long st ⟨k, [pa, leaf], f⟩ pa leaf [] rfl]
    unfold getSegmentMapping
    rw [hmap]
    rfl
  refine ⟨hT, ?_⟩
  have h := processField_edges_long st ⟨k, [pa, leaf], f⟩ pa leaf [] rfl
  rw [hT] at h
  exact h

/-- The roots and edges of a state reached by a successful
`setSegmentMapping` are those of the starting state. -/
theorem setSegmentMapping_ok_roots_edges {st st' : RegState} {k : GraphQLKind}
    {segment typeName : String} {parentSegment : Option String}
    (hok : setSegmentMapping st k segment typeName parentSegment = .ok st') :
    st'.roots = st.roots ∧ st'.edges = st.edges := by
  unfold setSegmentMapping at hok
  dsimp only at hok
  split at hok
  · split at hok
    · exact Except.noConfusion hok
    · simp only [Except.ok.injEq] at hok
      subst hok
      exact ⟨by rw [getOrCreate_roots], by rw [getOrCreate_edges]⟩
  · simp only [Except.ok.injEq] at hok
    subst hok
    exact ⟨by rw [getOrCreate_roots], by rw [getOrCreate_edges]⟩

/-! ## The graph invariant: every edge's parent root exists -/

theorem graphInv_congr {st st' : RegState} (hr : st'.roots = st.roots)
    (he : st'.edges = st.edges) (h : graphInv st) : graphInv st' := by
  intro e hm
  rw [he] at hm
  exact ⟨(h e hm).1, by rw [hr]; exact (h e hm).2⟩

theorem graphInv_initState : graphInv initState := by
  intro e he
  simp [initState] at he

theorem graphInv_ensureRoot (st : RegState) (k : GraphQLKind) (n : String)
    (t : Option String) (h : graphInv st) : graphInv ((ensureRoot st k n t).2) := by
  intro e hm
  rw [ensureRoot_edges] at hm
  refine ⟨(h e hm).1, ?_⟩
  obtain ⟨r, hr⟩ := Option.isSome_iff_exists.mp (h e hm).2
  rw [ensureRoot_roots_mono st k n t hr]
  rfl

theorem graphInv_getOrCreate (st : RegState) (n : String) (h : graphInv st) :
    graphInv ((getOrCreateObjectType st n).2) :=
  graphInv_congr (getOrCreate_roots st n) (getOrCreate_edges st n) h

theorem dropLast_headD_cons₂ (a b : String) (rest : List String) :
    ((a :: b :: rest).dropLast.headD "") = a := by
  have hd : (a :: b :: rest).dropLast = a :: (b :: rest).dropLast := by simp
  rw [hd]
  rfl

theorem graphInv_ensureEdge (st : RegState) (k : GraphQLKind) (segs : List String)
    (t : Option String) (h : graphInv st) : graphInv (ensureEdge st k segs t) := by
  match segs with
  | [] => exact h
  | [a] =>
      rw [ensureEdge_single]
      exact graphInv_ensureRoot st k a none h
  | a :: b :: rest =>
      intro e hm
      rw [ensureEdge_edges_cons₂] at hm
      have hmono : (mapGet st.roots (edgeRootKey e)).isSome →
          (mapGet (ensureEdge st k (a :: b :: rest) t).roots (edgeRootKey e)).isSome := by
        intro hs
        obtain ⟨r, hr⟩ := Option.isSome_iff_exists.mp hs
        rw [ensureEdge_roots_mono st k (a :: b :: rest) t hr]
        rfl
      have hnew : ∀ hmE : e = ensuredEdge k (a :: b :: rest) t,
          2 ≤ e.segments.length
            ∧ (mapGet (ensureEdge st k (a :: b :: rest) t).roots (edgeRootKey e)).isSome := by
        intro hmE
        subst hmE
        constructor
        · show 2 ≤ (a :: b :: rest).length
          simp only [List.length_cons]
          omega
        · show (mapGet (ensureEdge st k (a :: b :: rest) t).roots
            (edgeRootKey (ensuredEdge k (a :: b :: rest) t))).isSome
          have hkey : edgeRootKey (ensuredEdge k (a :: b :: rest) t)
              = createRootKey k (normalizeNamespaceName a) := by
            unfold edgeRootKey ensuredEdge
            rw [dropLast_headD_cons₂]
          rw [hkey]
          exact ensureEdge_rootKey_present st k a (b :: rest) t
      split at hm
      · exact ⟨(h e hm).1, hmono (h e hm).2⟩
      · rcases List.mem_append.mp hm with hold | hnew'
        · exact ⟨(h e hold).1, hmono (h e hold).2⟩
        · exact hnew (List.mem_singleton.mp hnew')

theorem graphInv_registerField (st : RegState) (meta : FieldMetadata) (h : graphInv st) :
    graphInv (registerField st meta) :=
  graphInv_congr rfl rfl h

theorem graphInv_setSegmentMapping {st st' : RegState} {k : GraphQLKind}
    {segment typeName : String} {parentSegment : Option String}
    (hok : setSegmentMapping st k segment typeName parentSegment = .ok st')
    (h : graphInv st) : graphInv st' := by
  obtain ⟨hr, he⟩ := setSegmentMapping_ok_roots_edges hok
  exact graphInv_congr hr he h

theorem graphInv_processField (st : RegState) (meta : FieldMetadata) (h : graphInv st) :
    graphInv (processField st meta) := by
  unfold processField
  exact graphInv_ensureEdge _ _ _ _ (graphInv_ensureRoot _ _ _ _ h)

theorem graphInv_foldl_processField (l : List FieldMetadata) (st : RegState)
    (h : graphInv st) : graphInv (l.foldl processField st) := by
  induction l generalizing st with
  | nil => exact h
  | cons m rest ih => exact ih _ (graphInv_processField st m h)

theorem graphInv_compileFields (st : RegState) (h : graphInv st) :
    graphInv (compileFields st) :=
  graphInv_foldl_processField st.fields st h

theorem graphInv_mergeFields (st : RegState) (k : GraphQLKind) (ns targetTypeName : String)
    (h : graphInv st) : graphInv (mergeFieldsIntoNamespace st k ns targetTypeName) := by
  unfold mergeFieldsIntoNamespace
  dsimp only
  split
  · exact h
  · exact graphInv_ensureEdge _ _ _ _ h

theorem graphInv_buildDynamicProviders (st : RegState) (h : graphInv st) :
    graphInv ((buildDynamicProviders st).2) := by
  unfold buildDynamicProviders
  dsimp only
  exact graphInv_congr (by rw [linkLoop_roots, rootLoop_roots])
    (by rw [linkLoop_edges, rootLoop_edges]) (graphInv_compileFields st h)

/-- Every state reachable through the public registry operations
satisfies the graph invariant. -/
theorem graphInv_reachable (st : RegState) (h : Reachable st) : graphInv st := by
  induction h with
  | init => exact graphInv_initState
  | setSegmentMapping k segment typeName parentSegment _ hok ih =>
      exact graphInv_setSegmentMapping hok ih
  | getOrCreateObjectType n _ ih => exact graphInv_getOrCreate _ n ih
  | ensureRoot k n t _ ih => exact graphInv_ensureRoot _ k n t ih
  | ensureEdge k segs t _ ih => exact graphInv_ensureEdge _ k segs t ih
  | registerField meta _ ih => exact graphInv_registerField _ meta ih
  | mergeFieldsIntoNamespace k ns targetTypeName _ ih => exact graphInv_mergeFields _ k ns targetTypeName ih
  | buildDynamicProviders _ ih => exact graphInv_buildDynamicProviders _ ih

/-- When an edge satisfies the invariant, the link loop emits exactly one
provider for it, parented on the root looked up by the edge's first
segment. -/
theorem linkStep_singleton (st : RegState) (e : NamespaceEdge)
    (hlen : 2 ≤ e.segments.length) {r : NamespaceRoot}
    (hr : mapGet st.roots (edgeRootKey e) = some r) :
    linkStep st e = ([Provider.linkResolver r.typeName (e.segments.getLastD "")
        e.targetTypeName (createLinkResolverClassName r.typeName (e.segments.getLastD ""))],
      (getOrCreateObjectType ((getOrCreateObjectType st r.typeName).2) e.targetTypeName).2) := by
  unfold linkStep
  dsimp only
  have hne0 : (e.segments.dropLast.length == 0) = false := by
    rw [List.length_dropLast]
    have : e.segments.length - 1 ≠ 0 := by omega
    simp [this]
  unfold edgeRootKey at hr
  simp only [hne0, Bool.false_eq_true, if_false, hr]

theorem linkLoop_length (es : List NamespaceEdge) (st : RegState)
    (hes : ∀ e ∈ es, 2 ≤ e.segments.length ∧ (mapGet st.roots (edgeRootKey e)).isSome) :
    (linkLoop st es).1.length = es.length := by
  induction es generalizing st with
  | nil => rfl
  | cons e rest ih =>
      obtain ⟨hlen, hsome⟩ := hes e (List.mem_cons_self e rest)
      obtain ⟨r, hr⟩ := Option.isSome_iff_exists.mp hsome
      show ((linkStep st e).1 ++ (linkLoop (linkStep st e).2 rest).1).length = rest.length + 1
      rw [linkStep_singleton st e hlen hr]
      have hroots : ((getOrCreateObjectType ((getOrCreateObjectType st r.typeName).2)
          e.targetTypeName).2).roots = st.roots := by
        rw [getOrCreate_roots, getOrCreate_roots]
      rw [List.length_append, ih _ (fun e' he' => ⟨(hes e' (List.mem_cons_of_mem e he')).1,
        by rw [hroots]; exact (hes e' (List.mem_cons_of_mem e he')).2⟩)]
      simp [Nat.add_comm]

/-! ## Claim theorems -/

/-- C1: `setSegmentMapping(k, s, t, p)` fails exactly when the secondary
index already associates (k, s) with a parent different from p (absence
normalized to the empty string); otherwise it records the primary mapping
and the secondary association and succeeds. In particular, mapping
`profile` under `user` and then under `settings` (Mutation kind) fails. -/
theorem claim_C1_conflict_iff (st : RegState) (k : GraphQLKind)
    (segment typeName : String) (parentSegment : Option String) :
    ((setSegmentMapping st k segment typeName parentSegment).isOk = false ↔
        ∃ q, mapGet st.leafToParent (createLeafParentKey k segment) = some q
          ∧ q ≠ jsOr parentSegment "")
      ∧ (∀ st', setSegmentMapping st k segment typeName parentSegment = .ok st' →
          mapGet st'.segmentToTypeName (createSegmentMappingKey k segment parentSegment)
              = some typeName
            ∧ mapGet st'.leafToParent (createLeafParentKey k segment)
              = some (jsOr parentSegment ""))
      ∧ (setSegmentMapping
            ((setSegmentMapping initState .Mutation "profile" "T1" (some "user")).toOption.getD
              initState)
            .Mutation "profile" "T2" (some "settings")).isOk = false := by
  refine ⟨?_, ?_, by decide⟩
  · unfold setSegmentMapping
    cases hlp : mapGet st.leafToParent (createLeafParentKey k segment) with
    | none =>
        simp only [hlp]
        constructor
        · intro h
          exact absurd h (by simp [Except.isOk, Except.toBool])
        · rintro ⟨q, hq, _⟩
          exact Option.noConfusion hq
    | some q =>
        simp only [hlp]
        by_cases hne : q ≠ jsOr parentSegment ""
        · rw [if_pos hne]
          exact ⟨fun _ => ⟨q, rfl, hne⟩, fun _ => rfl⟩
        · rw [if_neg hne]
          constructor
          · intro h
            exact absurd h (by simp [Except.isOk, Except.toBool])
          · rintro ⟨q', hq', hq'ne⟩
            obtain rfl : q = q' := by simpa using hq'
            exact absurd (not_not.mp hne) hq'ne
  · intro st' hok
    unfold setSegmentMapping at hok
    dsimp only at hok
    split at hok
    · split at hok
      · exact Except.noConfusion hok
      · simp only [Except.ok.injEq] at hok
        subst hok
        constructor
        · rw [getOrCreate_segmentToTypeName]
          exact mapGet_mapSet_self _ _ _
        · rw [getOrCreate_leafToParent]
          exact mapGet_mapSet_self _ _ _
    · simp only [Except.ok.injEq] at hok
      subst hok
      constructor
      · rw [getOrCreate_segmentToTypeName]
        exact mapGet_mapSet_self _ _ _
      · rw [getOrCreate_leafToParent]
        exact mapGet_mapSet_self _ _ _

/-- Witness for C1 at a concrete successful call. -/
theorem claim_C1_conflict_iff_witness :
    mapGet ((setSegmentMapping initState .Mutation "profile" "T1"
          (some "user")).toOption.getD initState).segmentToTypeName
        (createSegmentMappingKey .Mutation "profile" (some "user")) = some "T1"
      ∧ mapGet ((setSegmentMapping initState .Mutation "profile" "T1"
            (some "user")).toOption.getD initState).leafToParent
          (createLeafParentKey .Mutation "profile") = some (jsOr (some "user") "") :=
  (claim_C1_conflict_iff initState .Mutation "profile" "T1" (some "user")).2.1
    ((setSegmentMapping initState .Mutation "profile" "T1" (some "user")).toOption.getD
      initState) rfl

/-- C2: `getOrCreateObjectType` is identity-stable: a second request for
the same name returns the identical cached descriptor with nothing newly
created, and requests for distinct names return distinct descriptors. -/
theorem claim_C2_type_identity (st : RegState) (X Y : String) (hwf : typesWF st) :
    getOrCreateObjectType ((getOrCreateObjectType st X).2) X
        = ((getOrCreateObjectType st X).1, (getOrCreateObjectType st X).2)
      ∧ (X ≠ Y →
          (getOrCreateObjectType ((getOrCreateObjectType st X).2) Y).1
            ≠ (getOrCreateObjectType st X).1) := by
  constructor
  · exact getOrCreate_getOrCreate st X
  · intro hne
    have hwf1 : typesWF ((getOrCreateObjectType st X).2) := getOrCreate_wf X hwf
    have hX : mapGet ((getOrCreateObjectType st X).2).createdTypes X
        = some (getOrCreateObjectType st X).1 := getOrCreate_lookup st X
    cases hY : mapGet ((getOrCreateObjectType st X).2).createdTypes Y with
    | some j =>
        rw [getOrCreate_of_found hY]
        exact mapGet_injective hwf1.2.1 hY hX (fun e => hne e.symm)
    | none =>
        rw [getOrCreate_fst_of_none hY]
        have hlt : (getOrCreateObjectType st X).1 < ((getOrCreateObjectType st X).2).nextTypeId :=
          hwf1.2.2 _ (mem_of_mapGet_eq_some hX)
        exact fun he => absurd (he ▸ hlt) (lt_irrefl _)

/-- Witness for C2 at the initial state with names X and Y. -/
theorem claim_C2_type_identity_witness :
    getOrCreateObjectType ((getOrCreateObjectType initState "X").2) "X"
        = ((getOrCreateObjectType initState "X").1, (getOrCreateObjectType initState "X").2)
      ∧ (getOrCreateObjectType ((getOrCreateObjectType initState "X").2) "Y").1
        ≠ (getOrCreateObjectType initState "X").1 := by
  have h := claim_C2_type_identity initState "X" "Y" typesWF_initState
  exact ⟨h.1, h.2 (by decide)⟩

/-- C5 counterexample: the compile step does not drain the Field
Registry — after `buildDynamicProviders` the collected registration is
still present. -/
theorem claim_C5_counterexample :
    ((buildDynamicProviders (registerField initState
        ⟨GraphQLKind.Mutation, ["user", "createUser"], "createUser"⟩)).2).fields ≠ [] := by
  decide

/-- C5 amended: `buildDynamicProviders` leaves the field list untouched
(the registrations are not consumed; a second compile observes the same
fields), and the diagnostic count reflects that. -/
theorem claim_C5_amended_fields_unchanged (st : RegState) :
    ((buildDynamicProviders st).2).fields = st.fields
      ∧ (getRegistryStats ((buildDynamicProviders st).2)).fields = st.fields.length := by
  refine ⟨buildDynamicProviders_fields st, ?_⟩
  show ((buildDynamicProviders st).2).fields.length = st.fields.length
  rw [buildDynamicProviders_fields st]

/-- C6: edge registration is idempotent: a second `ensureEdge` whose
constructed edge is equal (same kind, joined path and target name) leaves
the edge list unchanged, and in a deduplicated graph exactly one copy of
the edge is present. -/
theorem claim_C6_edge_idempotent (st : RegState) (k k' : GraphQLKind)
    (a b a' b' : String) (rest rest' : List String) (t t' : Option String)
    (heq : edgesAreEqual (ensuredEdge k (a :: b :: rest) t)
        (ensuredEdge k' (a' :: b' :: rest') t') = true)
    (hnd : edgesNodup st) :
    (ensureEdge (ensureEdge st k (a :: b :: rest) t) k' (a' :: b' :: rest') t').edges
        = (ensureEdge st k (a :: b :: rest) t).edges
      ∧ (ensureEdge (ensureEdge st k (a :: b :: rest) t) k' (a' :: b' :: rest') t').edges.countP
          (fun x => edgesAreEqual x (ensuredEdge k (a :: b :: rest) t)) = 1 := by
  have hany1 := ensureEdge_any_true st k a b rest t
  have hany2 : (ensureEdge st k (a :: b :: rest) t).edges.any
      (fun e => edgesAreEqual e (ensuredEdge k' (a' :: b' :: rest') t')) = true := by
    obtain ⟨x, hx, hxe⟩ := List.any_eq_true.mp hany1
    exact List.any_eq_true.mpr ⟨x, hx, edgesAreEqual_trans hxe heq⟩
  have hedges : (ensureEdge (ensureEdge st k (a :: b :: rest) t) k' (a' :: b' :: rest') t').edges
      = (ensureEdge st k (a :: b :: rest) t).edges := by
    rw [ensureEdge_edges_cons₂, if_pos hany2]
  refine ⟨hedges, ?_⟩
  rw [hedges]
  exact countP_eq_one_of_pairwise _ _ (edgesNodup_ensureEdge st k _ t hnd) hany1

/-- Witness for C6: registering the Mutation edge user.createUser twice
from the empty registry leaves exactly one copy. -/
theorem claim_C6_edge_idempotent_witness :
    (ensureEdge (ensureEdge initState .Mutation ["user", "createUser"] none)
        .Mutation ["user", "createUser"] none).edges
        = (ensureEdge initState .Mutation ["user", "createUser"] none).edges
      ∧ (ensureEdge (ensureEdge initState .Mutation ["user", "createUser"] none)
          .Mutation ["user", "createUser"] none).edges.countP
          (fun x => edgesAreEqual x (ensuredEdge .Mutation ["user", "createUser"] none)) = 1 :=
  claim_C6_edge_idempotent initState .Mutation .Mutation "user" "createUser" "user" "createUser"
    [] [] none none (by decide) edgesNodup_initState

/-- C3: single-segment path normalization is equivalent to registering
the two-segment path directly: when the secondary index records a truthy
parent for (kind, leaf), the field loop widens [leaf] to [parent, leaf]
and processes the registration exactly as it would the two-segment path;
otherwise the path stays [leaf]. Concretely, with
setSegmentMapping(Mutation, createUser, UserMutations, user) in effect,
compiling path [createUser] and path [user, createUser] produces the same
edges, the same types and the same roots. -/
theorem claim_C3_normalization_equivalence (st : RegState) (k : GraphQLKind)
    (leaf f p : String) :
    (getParentForLeaf st k leaf = some p → p ≠ "" →
        effectiveSegments st ⟨k, [leaf], f⟩ = [p, leaf]
          ∧ processField st ⟨k, [leaf], f⟩ = processField st ⟨k, [p, leaf], f⟩)
      ∧ (getParentForLeaf st k leaf = none ∨ getParentForLeaf st k leaf = some "" →
          effectiveSegments st ⟨k, [leaf], f⟩ = [leaf])
      ∧ ((buildDynamicProviders (registerField ((setSegmentMapping initState .Mutation
            "createUser" "UserMutations" (some "user")).toOption.getD initState)
            ⟨.Mutation, ["createUser"], "createUser"⟩)).2).edges
          = ((buildDynamicProviders (registerField ((setSegmentMapping initState .Mutation
              "createUser" "UserMutations" (some "user")).toOption.getD initState)
              ⟨.Mutation, ["user", "createUser"], "createUser"⟩)).2).edges
      ∧ ((buildDynamicProviders (registerField ((setSegmentMapping initState .Mutation
            "createUser" "UserMutations" (some "user")).toOption.getD initState)
            ⟨.Mutation, ["createUser"], "createUser"⟩)).2).createdTypes
          = ((buildDynamicProviders (registerField ((setSegmentMapping initState .Mutation
              "createUser" "UserMutations" (some "user")).toOption.getD initState)
              ⟨.Mutation, ["user", "createUser"], "createUser"⟩)).2).createdTypes
      ∧ ((buildDynamicProviders (registerField ((setSegmentMapping initState .Mutation
            "createUser" "UserMutations" (some "user")).toOption.getD initState)
            ⟨.Mutation, ["createUser"], "createUser"⟩)).2).roots
          = ((buildDynamicProviders (registerField ((setSegmentMapping initState .Mutation
              "createUser" "UserMutations" (some "user")).toOption.getD initState)
              ⟨.Mutation, ["user", "createUser"], "createUser"⟩)).2).roots := by
  refine ⟨?_, fun hp => effectiveSegments_single_unmapped st k leaf f hp,
    by decide, by decide, by decide⟩
  intro hp hne
  have e1 := effectiveSegments_single_mapped st k leaf f p hp hne
  refine ⟨e1, ?_⟩
  unfold processField fieldTargetTypeName
  rw [e1, effectiveSegments_long]

/-- Witness for C3 at the concrete mapped scenario. -/
theorem claim_C3_normalization_equivalence_witness :
    effectiveSegments ((setSegmentMapping initState .Mutation "createUser" "UserMutations"
          (some "user")).toOption.getD initState) ⟨.Mutation, ["createUser"], "createUser"⟩
        = ["user", "createUser"]
      ∧ processField ((setSegmentMapping initState .Mutation "createUser" "UserMutations"
            (some "user")).toOption.getD initState) ⟨.Mutation, ["createUser"], "createUser"⟩
        = processField ((setSegmentMapping initState .Mutation "createUser" "UserMutations"
            (some "user")).toOption.getD initState)
            ⟨.Mutation, ["user", "createUser"], "createUser"⟩ :=
  (claim_C3_normalization_equivalence ((setSegmentMapping initState .Mutation "createUser"
      "UserMutations" (some "user")).toOption.getD initState) .Mutation "createUser"
      "createUser" "user").1 (by decide) (by decide)

/-- C4 counterexample: an explicit mapping whose stored type name is the
empty string is found by the lookup but ignored by the field loop (JS
truthiness), so the edge gets the default-derived name instead of the
mapped one. -/
theorem claim_C4_counterexample :
    getSegmentMapping ((setSegmentMapping initState .Mutation "b" "" (some "a")).toOption.getD
          initState) .Mutation "b" (some "a") = some ""
      ∧ fieldTargetTypeName ((setSegmentMapping initState .Mutation "b" ""
            (some "a")).toOption.getD initState) ⟨.Mutation, ["a", "b"], "b"⟩ = "BMutations"
      ∧ ((buildDynamicProviders (registerField ((setSegmentMapping initState .Mutation "b" ""
            (some "a")).toOption.getD initState) ⟨.Mutation, ["a", "b"], "b"⟩)).2).edges
        = [⟨.Mutation, ["a", "b"], "BMutations"⟩]
      ∧ ("BMutations" : String) ≠ "" := by
  refine ⟨by decide, by decide, by decide, by decide⟩

/-- C4 amended: for an effective path of length at least 2 the edge's
target type name is the explicit mapping for (kind, leafSeg, parentSeg)
when that lookup succeeds with a non-empty name; otherwise (lookup fails,
or returns the empty string, which JS truthiness discards) it is the
default-derived name for the leaf segment. -/
theorem claim_C4_explicit_mapping_wins (st : RegState) (meta : FieldMetadata)
    (a b : String) (rest : List String)
    (hseg : effectiveSegments st meta = a :: b :: rest) :
    (∀ m, getSegmentMapping st meta.graphqlKind ((a :: b :: rest).getLastD "")
          (some ((a :: b :: rest).getD ((a :: b :: rest).length - 2) "")) = some m →
        m ≠ "" → fieldTargetTypeName st meta = m)
      ∧ (getSegmentMapping st meta.graphqlKind ((a :: b :: rest).getLastD "")
            (some ((a :: b :: rest).getD ((a :: b :: rest).length - 2) "")) = none →
          fieldTargetTypeName st meta
            = createDefaultTypeName ((a :: b :: rest).getLastD "") meta.graphqlKind)
      ∧ (processField st meta).edges
          = (if st.edges.any (fun x => edgesAreEqual x
                ⟨meta.graphqlKind, a :: b :: rest, fieldTargetTypeName st meta⟩)
             then st.edges
             else st.edges
                ++ [⟨meta.graphqlKind, a :: b :: rest, fieldTargetTypeName st meta⟩]) := by
  refine ⟨?_, ?_, processField_edges_long st meta a b rest hseg⟩
  · intro m hm hmne
    rw [fieldTargetTypeName_long st meta a b rest hseg, hm, jsOr_some_of_ne _ hmne]
  · intro hm
    rw [fieldTargetTypeName_long st meta a b rest hseg, hm, jsOr_none]

/-- Witness for C4: an explicit non-empty mapping wins over the default
name. -/
theorem claim_C4_explicit_mapping_wins_witness :
    fieldTargetTypeName ((setSegmentMapping initState .Mutation "profile" "ProfileOps"
          (some "user")).toOption.getD initState) ⟨.Mutation, ["user", "profile"], "profile"⟩
      = "ProfileOps" :=
  ((claim_C4_explicit_mapping_wins ((setSegmentMapping initState .Mutation "profile"
      "ProfileOps" (some "user")).toOption.getD initState)
      ⟨.Mutation, ["user", "profile"], "profile"⟩ "user" "profile" [] rfl).1)
    "ProfileOps" (by decide) (by decide)

/-- C8: no conflict without an explicit mapping: registering the same
leaf under two different parents through `registerField` alone raises no
ConflictError — `registerField` and the compile step are total functions
in the embedding (only `setSegmentMapping` can fail) — and compiling
yields one edge per registration, each under its own 2-segment path. -/
theorem claim_C8_no_conflict_without_mapping (k : GraphQLKind) (p1 p2 leaf f1 f2 : String)
    (hne : p1 ≠ p2) :
    ((buildDynamicProviders (registerField (registerField initState ⟨k, [p1, leaf], f1⟩)
        ⟨k, [p2, leaf], f2⟩)).2).edges
      = [⟨k, [p1, leaf], createDefaultTypeName leaf k⟩,
          ⟨k, [p2, leaf], createDefaultTypeName leaf k⟩] := by
  rw [buildDynamicProviders_edges]
  have hflds : (registerField (registerField initState ⟨k, [p1, leaf], f1⟩)
        ⟨k, [p2, leaf], f2⟩).fields = [⟨k, [p1, leaf], f1⟩, ⟨k, [p2, leaf], f2⟩] := rfl
  unfold compileFields
  rw [hflds, List.foldl_cons, List.foldl_cons, List.foldl_nil]
  have h1 := processField_two_fresh (registerField (registerField initState
      ⟨k, [p1, leaf], f1⟩) ⟨k, [p2, leaf], f2⟩) k p1 leaf f1 rfl
  have hst1map : (processField (registerField (registerField initState ⟨k, [p1, leaf], f1⟩)
        ⟨k, [p2, leaf], f2⟩) ⟨k, [p1, leaf], f1⟩).segmentToTypeName = [] := by
    rw [processField_segmentToTypeName]
    rfl
  have h2 := processField_two_fresh (processField (registerField (registerField initState
      ⟨k, [p1, leaf], f1⟩) ⟨k, [p2, leaf], f2⟩) ⟨k, [p1, leaf], f1⟩) k p2 leaf f2 hst1map
  have hedges1 : (processField (registerField (registerField initState ⟨k, [p1, leaf], f1⟩)
        ⟨k, [p2, leaf], f2⟩) ⟨k, [p1, leaf], f1⟩).edges
      = [⟨k, [p1, leaf], createDefaultTypeName leaf k⟩] := by
    rw [h1.2]
    rfl
  have hdiff : edgesAreEqual ⟨k, [p1, leaf], createDefaultTypeName leaf k⟩
      ⟨k, [p2, leaf], createDefaultTypeName leaf k⟩ = false := by
    have hj : (joinDot [p1, leaf] == joinDot [p2, leaf]) = false :=
      beq_eq_false_iff_ne.mpr (joinDot_pair_ne leaf hne)
    simp [edgesAreEqual, hj]
  rw [h2.2, hedges1]
  simp [hdiff]

/-- Witness for C8: leaf `profile` under parents `user` and `settings`
with no mapping call compiles to two independent edges. -/
theorem claim_C8_no_conflict_without_mapping_witness :
    ((buildDynamicProviders (registerField (registerField initState
        ⟨.Mutation, ["user", "profile"], "profile"⟩)
        ⟨.Mutation, ["settings", "profile"], "profile"⟩)).2).edges
      = [⟨.Mutation, ["user", "profile"], createDefaultTypeName "profile" .Mutation⟩,
          ⟨.Mutation, ["settings", "profile"], createDefaultTypeName "profile" .Mutation⟩] :=
  claim_C8_no_conflict_without_mapping .Mutation "user" "settings" "profile" "profile"
    "profile" (by decide)

/-- C7: root type names are first-wins immutable: once a root exists for
(kind, normalized name), any later `ensureRoot` for the same pair — even
with a different type name — returns the original root and leaves the
state unchanged; at creation the stored type name is the supplied one if
truthy, else the default-derived one. -/
theorem claim_C7_root_first_wins (st : RegState) (k : GraphQLKind) (n n' : String)
    (t t' : Option String) (hn : normalizeNamespaceName n' = normalizeNamespaceName n) :
    ensureRoot ((ensureRoot st k n t).2) k n' t'
        = ((ensureRoot st k n t).1, (ensureRoot st k n t).2)
      ∧ (mapGet st.roots (createRootKey k (normalizeNamespaceName n)) = none →
          ((ensureRoot st k n t).1).typeName
            = jsOr t (createDefaultTypeName (normalizeNamespaceName n) k)) := by
  constructor
  · exact ensureRoot_ensureRoot st k n n' t t' hn
  · intro h
    unfold ensureRoot
    simp only [h]

/-- C9: the missing-parent branch is unreachable: in every reachable
registry state every edge has length-≥2 segments and its parent root —
keyed by (kind, normalized first segment) — present in the roots map,
because `ensureEdge` always ensures the root before appending and roots
are never removed; hence during compilation the link loop emits exactly
one link resolver per edge and drops none, and the provider output is the
root resolvers followed by one link resolver per edge. -/
theorem claim_C9_no_missing_parent (st : RegState) (h : Reachable st) :
    graphInv st
      ∧ (linkLoop ((rootLoop (compileFields st) (compileFields st).roots).2)
            ((rootLoop (compileFields st) (compileFields st).roots).2).edges).1.length
        = ((rootLoop (compileFields st) (compileFields st).roots).2).edges.length
      ∧ (buildDynamicProviders st).1
        = (rootLoop (compileFields st) (compileFields st).roots).1
          ++ (linkLoop ((rootLoop (compileFields st) (compileFields st).roots).2)
              ((rootLoop (compileFields st) (compileFields st).roots).2).edges).1 := by
  have hinv := graphInv_reachable st h
  have hinv2 : graphInv ((rootLoop (compileFields st) (compileFields st).roots).2) :=
    graphInv_congr (rootLoop_roots _ _) (rootLoop_edges _ _) (graphInv_compileFields st hinv)
  exact ⟨hinv, linkLoop_length _ _ (fun e he => hinv2 e he), rfl⟩

/-- Witness for C9 at a reachable state holding one edge. -/
theorem claim_C9_no_missing_parent_witness :
    graphInv (ensureEdge initState .Mutation ["a", "b"] none)
      ∧ (linkLoop ((rootLoop (compileFields (ensureEdge initState .Mutation ["a", "b"] none))
            (compileFields (ensureEdge initState .Mutation ["a", "b"] none)).roots).2)
            ((rootLoop (compileFields (ensureEdge initState .Mutation ["a", "b"] none))
              (compileFields (ensureEdge initState .Mutation ["a", "b"] none)).roots).2).edges).1.length
        = ((rootLoop (compileFields (ensureEdge initState .Mutation ["a", "b"] none))
            (compileFields (ensureEdge initState .Mutation ["a", "b"] none)).roots).2).edges.length
      ∧ (buildDynamicProviders (ensureEdge initState .Mutation ["a", "b"] none)).1
        = (rootLoop (compileFields (ensureEdge initState .Mutation ["a", "b"] none))
            (compileFields (ensureEdge initState .Mutation ["a", "b"] none)).roots).1
          ++ (linkLoop ((rootLoop (compileFields (ensureEdge initState .Mutation ["a", "b"] none))
              (compileFields (ensureEdge initState .Mutation ["a", "b"] none)).roots).2)
              ((rootLoop (compileFields (ensureEdge initState .Mutation ["a", "b"] none))
                (compileFields (ensureEdge initState .Mutation ["a", "b"] none)).roots).2).edges).1 :=
  claim_C9_no_missing_parent (ensureEdge initState .Mutation ["a", "b"] none)
    (Reachable.ensureEdge .Mutation ["a", "b"] none Reachable.init)

/-- C10: every emitted link resolver is parented on the type of the
edge's root — the root looked up by (kind, normalized first segment) —
never on the type of the edge's immediate parent segment; for the
3-segment path a.b.c the field c is bound onto AMutations (the root's
type), which differs from BMutations (the immediate parent's default
type). -/
theorem claim_C10_link_attaches_to_root :
    (∀ st e p, p ∈ (linkStep st e).1 →
        ∃ r, mapGet st.roots (edgeRootKey e) = some r
          ∧ p = Provider.linkResolver r.typeName (e.segments.getLastD "") e.targetTypeName
              (createLinkResolverClassName r.typeName (e.segments.getLastD "")))
      ∧ (buildDynamicProviders (registerField initState ⟨.Mutation, ["a", "b", "c"], "c"⟩)).1
        = [Provider.rootResolver "Mutation" "a" "AMutations" "AMutationsRootResolver",
            Provider.linkResolver "AMutations" "c" "CMutations" "AMutations_c_LinkResolver"]
      ∧ ("AMutations" : String) ≠ createDefaultTypeName "b" .Mutation := by
  refine ⟨?_, by decide, by decide⟩
  intro st e p hp
  unfold linkStep at hp
  dsimp only at hp
  by_cases h0 : (e.segments.dropLast.length == 0) = true
  · rw [if_pos (by simpa using h0)] at hp
    simp at hp
  · have h0' : (e.segments.dropLast.length == 0) = false := by
      simpa using h0
    simp only [h0', Bool.false_eq_true, if_false] at hp
    cases hm : mapGet st.roots (createRootKey e.graphqlKind
        (normalizeNamespaceName (e.segments.dropLast.headD ""))) with
    | none =>
        rw [hm] at hp
        simp at hp
    | some r =>
        rw [hm] at hp
        dsimp only at hp
        rw [List.mem_singleton] at hp
        exact ⟨r, by unfold edgeRootKey; exact hm, hp⟩

/-- Witness for C10 at the compiled a.b.c edge. -/
theorem claim_C10_link_attaches_to_root_witness :
    ∃ r, mapGet (compileFields (registerField initState
          ⟨.Mutation, ["a", "b", "c"], "c"⟩)).roots
        (edgeRootKey ⟨.Mutation, ["a", "b", "c"], "CMutations"⟩) = some r
      ∧ Provider.linkResolver "AMutations" "c" "CMutations" "AMutations_c_LinkResolver"
        = Provider.linkResolver r.typeName
            ((["a", "b", "c"] : List String).getLastD "") "CMutations"
            (createLinkResolverClassName r.typeName
              ((["a", "b", "c"] : List String).getLastD "")) :=
  claim_C10_link_attaches_to_root.1
    (compileFields (registerField initState ⟨.Mutation, ["a", "b", "c"], "c"⟩))
    ⟨.Mutation, ["a", "b", "c"], "CMutations"⟩
    (Provider.linkResolver "AMutations" "c" "CMutations" "AMutations_c_LinkResolver")
    (by decide)

/-- Witness for C7: a later call with a different explicit type name does
not change the root created first. -/
theorem claim_C7_root_first_wins_witness :
    ensureRoot ((ensureRoot initState .Mutation "user" (some "CustomUser")).2)
        .Mutation "user" (some "Other")
        = ((ensureRoot initState .Mutation "user" (some "CustomUser")).1,
            (ensureRoot initState .Mutation "user" (some "CustomUser")).2)
      ∧ ((ensureRoot initState .Mutation "user" (some "CustomUser")).1).typeName
        = jsOr (some "CustomUser")
            (createDefaultTypeName (normalizeNamespaceName "user") .Mutation) := by
  have h := claim_C7_root_first_wins initState .Mutation "user" "user"
    (some "CustomUser") (some "Other") rfl
  exact ⟨h.1, h.2 (by decide)⟩

end GqlNs
